import Mathlib

/-!
Shallow embedding of `src/mpd/proto_client.rs` (package `rmpc`): the MPD
protocol client.  Byte streams are modelled as `List Char` (the sources only
ever exchange newline-delimited ASCII lines plus raw payload bytes).  The
pieces of the repository that `proto_client.rs` imports from `super`
(`MpdError`, `MpdFailureResponse`, `split_line`, `FromMpd`) are not among the
provided source files; those definitions are modelled from the spec and carry
a doc comment saying so.  Everything else is translated directly from the
Rust source.
-/

namespace Rmpc

/-- Byte strings on the wire, modelled as lists of characters. -/
abbrev Bytes := List Char

instance exceptDecEq {ε α : Type} [DecidableEq ε] [DecidableEq α] :
    DecidableEq (Except ε α) := fun x y =>
  match x, y with
  | .ok a, .ok b =>
    if h : a = b then .isTrue (by rw [h]) else .isFalse fun hc => h (Except.ok.inj hc)
  | .error e, .error f =>
    if h : e = f then .isTrue (by rw [h]) else .isFalse fun hc => h (Except.error.inj hc)
  | .ok _, .error _ => .isFalse fun hc => Except.noConfusion hc
  | .error _, .ok _ => .isFalse fun hc => Except.noConfusion hc

/-- Mirrors `enum MpdLine { Ok, Value(String) }` from `proto_client.rs`. -/
inductive MpdLine where
  | Ok : MpdLine
  | Value : Bytes → MpdLine
deriving DecidableEq, Repr

/-- Modelled from the spec: `FailureResponse` is
`{ code: ErrorCode, command_list_index: integer, command: string, message: string }`
parsed from an ACK-formatted line (`errors.rs` is not among the provided
sources).  The closed `ErrorCode` enumeration is represented by its numeric
code together with the known-code check in the parser. -/
structure MpdFailureResponse where
  code : Nat
  command_list_index : Nat
  command : Bytes
  message : Bytes
deriving DecidableEq, Repr

/-- Modelled from the spec: the error taxonomy of the protocol core
(`errors.rs` is not among the provided sources).  `Mpd` is a server-reported
ACK failure, `Generic` a decode error with a message, `ClientClosed` the
distinguished connection-closed signal, `ValueExpected` the binary-read
contract violation, and `Parse` a numeric/format parse failure. -/
inductive MpdError where
  | Mpd : MpdFailureResponse → MpdError
  | Generic : Bytes → MpdError
  | ClientClosed : MpdError
  | ValueExpected : Bytes → MpdError
  | Parse : Bytes → MpdError
deriving DecidableEq, Repr

/-- Digit test for the numeric parser. -/
def isDigit (c : Char) : Bool := '0' ≤ c && c ≤ '9'

/-- Value of a digit string. -/
def digitsToNat (s : Bytes) : Nat :=
  s.foldl (fun n c => n * 10 + (c.toNat - '0'.toNat)) 0

/-- Modelled from the spec: Rust's `str::parse` into a bounded unsigned
integer — the digits of the string interpreted in base 10, failing on a
non-digit, an empty string, or overflow of the target width. -/
def parseNum (bound : Nat) (s : Bytes) : Except MpdError Nat :=
  if !s.isEmpty && s.all isDigit then
    let n := digitsToNat s
    if n < bound then .ok n else .error (.Parse s)
  else .error (.Parse s)

/-- Modelled from the spec: the protocol error codes the closed `ErrorCode`
enumeration maps (e.g. 55 is the player-sync error used by the tests);
unmapped integers must fail to parse. -/
def knownErrorCodes : List Nat := [1, 2, 3, 4, 5, 50, 51, 52, 53, 54, 55, 56]

/-- Message for a malformed ACK line. -/
def ackMalformedMsg : Bytes := ("Invalid ACK response").toList

/-- Modelled from the spec: the Failure Decoder parses
`ACK [<error-code>@<command-list-index>] \x7b<command-name>\x7d <message>`
into an `MpdFailureResponse`; malformed ACK lines are themselves a hard parse
error, and unmapped numeric codes fail to parse (`errors.rs` is not among the
provided sources).  A trailing newline is stripped from the message. -/
def MpdFailureResponse.fromStr (line : Bytes) : Except MpdError MpdFailureResponse :=
  match line.dropWhile (fun c => c ≠ '[') with
  | '[' :: rest =>
    let codeS := rest.takeWhile (fun c => c ≠ '@')
    match rest.dropWhile (fun c => c ≠ '@') with
    | '@' :: rest2 =>
      let idxS := rest2.takeWhile (fun c => c ≠ ']')
      match rest2.dropWhile (fun c => c ≠ ']') with
      | ']' :: rest3 =>
        let rest4 := match rest3 with
          | ' ' :: r => r
          | r => r
        match rest4 with
        | '\x7b' :: rest5 =>
          let cmd := rest5.takeWhile (fun c => c ≠ '\x7d')
          match rest5.dropWhile (fun c => c ≠ '\x7d') with
          | '\x7d' :: rest6 =>
            let msg0 := match rest6 with
              | ' ' :: r => r
              | r => r
            let msg := if msg0.getLast? = some '\n' then msg0.dropLast else msg0
            match parseNum (2 ^ 32) codeS, parseNum (2 ^ 32) idxS with
            | .ok code, .ok idx =>
              if knownErrorCodes.contains code then
                .ok ⟨code, idx, cmd, msg⟩
              else .error (.Parse codeS)
            | .error e, _ => .error e
            | _, .error e => .error e
          | _ => .error (.Generic ackMalformedMsg)
        | _ => .error (.Generic ackMalformedMsg)
      | _ => .error (.Generic ackMalformedMsg)
    | _ => .error (.Generic ackMalformedMsg)
  | _ => .error (.Generic ackMalformedMsg)

/-- The kinds of I/O error the underlying read can fail with, modelling
`std::io::ErrorKind`; only `brokenPipe` is named by the source. -/
inductive IOErrorKind where
  | brokenPipe : IOErrorKind
  | timedOut : IOErrorKind
  | notFound : IOErrorKind
  | other : IOErrorKind
deriving DecidableEq, Repr

/-- Outcome of one `BufRead::read_line` call: either the line that was read
(including its trailing newline unless the stream ended first; the empty
string means zero bytes were read), or an I/O error of some kind. -/
inductive ReadResult where
  | ok : Bytes → ReadResult
  | err : IOErrorKind → ReadResult
deriving DecidableEq, Repr

/-- Translation of `ProtoClient::read_line` (`proto_client.rs` lines
191-212) as a function of the outcome of the underlying read.  The two error
arms of the source's `match` (the `BrokenPipe`-guarded arm and the catch-all
`_` arm) are kept separate here exactly as in the source; both produce
`MpdError::ClientClosed`. -/
def read_line (r : ReadResult) : Except MpdError MpdLine :=
  match r with
  | .err k =>
    if k = .brokenPipe then .error .ClientClosed
    else .error .ClientClosed
  | .ok line =>
    if line.length = 0 then .error .ClientClosed
    else if ("OK".toList.isPrefixOf line) || ("list_OK".toList.isPrefixOf line) then
      .ok .Ok
    else if "ACK".toList.isPrefixOf line then
      match MpdFailureResponse.fromStr line with
      | .ok f => .error (.Mpd f)
      | .error e => .error e
    else
      .ok (.Value line.dropLast)

/-- `BufRead::read_line` over an in-memory stream: the first line of the
stream (up to and including the first newline, or the whole rest of the
stream at its end) together with the remainder. -/
def readLineRaw (s : Bytes) : Bytes × Bytes :=
  match s with
  | [] => ([], [])
  | c :: rest =>
    if c = '\n' then ([c], rest)
    else
      let p := readLineRaw rest
      (c :: p.1, p.2)

/-- `ProtoClient::read_line` driven by an in-memory stream (the source's
tests substitute such a stream via `TestClient`): read one raw line, classify
it, and return the remainder of the stream.  The only read failure an
in-memory stream produces is its end, i.e. a zero-byte read. -/
def readLineS (s : Bytes) : Except MpdError MpdLine × Bytes :=
  let p := readLineRaw s
  (read_line (.ok p.1), p.2)

/-- Modelled from the spec: `split_line` (from the `mpd` module root, not
among the provided sources) splits a data line `key: value` at its first
colon, the value being the remainder with the single following space
removed; a line with no colon is a decode error. -/
def split_line (l : Bytes) : Except MpdError (Bytes × Bytes) :=
  if l.contains ':' then
    let key := l.takeWhile (fun c => c ≠ ':')
    let afterColon := (l.dropWhile (fun c => c ≠ ':')).tail
    let value := match afterColon with
      | ' ' :: r => r
      | r => r
    .ok (key, value)
  else .error (.Generic (("Invalid line: ").toList ++ l))

/-- Mirrors `enum LineHandled` of the Generic Decoding Contract. -/
inductive LineHandled where
  | yes : LineHandled
  | no : LineHandled
deriving DecidableEq, Repr

/-- The Generic Decoding Contract (the `FromMpd` trait): an empty/default
state plus an incremental `(key, value)` consumer that either updates the
state (reporting whether the key was meaningful) or fails the whole
decode. -/
structure FromMpd (V : Type) where
  empty : V
  next_internal : V → Bytes → Bytes → Except MpdError (LineHandled × V)

/-- Modelled from the spec: `FromMpd::next` (from the `mpd` module root, not
among the provided sources) splits one wire line into `(key, value)` and
feeds it to the type's incremental consumer; an unrecognized-but-tolerated
key (`LineHandled::no`) is not an error, and any consumer failure is a
terminal decode error for the response. -/
def FromMpd.next {V : Type} (F : FromMpd V) (v : V) (line : Bytes) : Except MpdError V :=
  match split_line line with
  | .error e => .error e
  | .ok (key, value) =>
    match F.next_internal v key value with
    | .error e => .error e
    | .ok (_, v2) => .ok v2

/-- The Socket Capability of §4.1, instantiated the way the source's own
tests do (`TestClient`): the read side is an in-memory stream, writes always
succeed and are recorded in order in `sent`, and each successful reconnect
installs the next scripted response stream from `reconnects`. -/
structure SocketClient where
  stream : Bytes
  reconnects : List Bytes
  sent : List Bytes
deriving DecidableEq, Repr

/-- `SocketClient::reconnect`: re-establish the connection in place.  With a
scripted stream supply this installs the next response stream; with none
left, reconnecting fails. -/
def reconnect (c : SocketClient) : Except MpdError SocketClient :=
  match c.reconnects with
  | [] => .error (.Generic ("Failed to reconnect").toList)
  | s :: rest => .ok { c with stream := s, reconnects := rest }

/-- `ProtoClient::execute`: write `command + "\n"` to the socket.  The
modelled transport accepts every write (as the source's `TestClient` does),
so the broken-pipe write-retry arm of the source is never taken; the command
written is recorded. -/
def execute (c : SocketClient) (command : Bytes) : SocketClient :=
  { c with sent := c.sent ++ [command] }

/-- `ProtoClient::new`: constructing a client executes its command once. -/
def protoClient (command : Bytes) (stream : Bytes) (reconnects : List Bytes) : SocketClient :=
  { stream := stream, reconnects := reconnects, sent := [command] }

/-- An upper bound on the number of read/reconnect steps any of the engine's
read loops can take against a given client: every loop iteration either
consumes at least one character of the current stream or installs one of the
remaining scripted streams. -/
def clientFuel (c : SocketClient) : Nat :=
  c.stream.length + (c.reconnects.map (fun s => s.length + 1)).sum + 1

/-- The `format!("Expected 'OK' but got '{val}'")` message of the source. -/
def expectedOkMsg (val : Bytes) : Bytes :=
  ("Expected \x27OK\x27 but got \x27").toList ++ val ++ ("\x27").toList

/-- Translation of `ProtoClient::read_ok` (`proto_client.rs` lines 66-79),
with explicit step fuel: expect exactly one terminator line; a value line is
a decode error; on connection-closed, reconnect, re-execute the original
command and start over. -/
def read_ok_go : Nat → Bytes → SocketClient → Except MpdError Unit × SocketClient
  | 0, _, c => (.error .ClientClosed, c)
  | fuel + 1, command, c =>
    match readLineS c.stream with
    | (.ok .Ok, rest) => (.ok (), { c with stream := rest })
    | (.ok (.Value val), rest) =>
      (.error (.Generic (expectedOkMsg val)), { c with stream := rest })
    | (.error .ClientClosed, _) =>
      match reconnect c with
      | .error e => (.error e, c)
      | .ok c2 => read_ok_go fuel command (execute c2 command)
    | (.error e, rest) => (.error e, { c with stream := rest })

/-- `ProtoClient::read_ok` at its always-sufficient fuel. -/
def read_ok (command : Bytes) (c : SocketClient) : Except MpdError Unit × SocketClient :=
  read_ok_go (clientFuel c) command c

/-- Translation of `ProtoClient::read_response` (`proto_client.rs` lines
81-100), with explicit step fuel: fold value lines into the accumulating
object, return it at the terminator, propagate decode failures immediately;
on connection-closed, reconnect, re-execute and restart from the default
object. -/
def read_response_go {V : Type} (F : FromMpd V) :
    Nat → Bytes → V → SocketClient → Except MpdError V × SocketClient
  | 0, _, _, c => (.error .ClientClosed, c)
  | fuel + 1, command, result, c =>
    match readLineS c.stream with
    | (.ok .Ok, rest) => (.ok result, { c with stream := rest })
    | (.ok (.Value val), rest) =>
      match F.next result val with
      | .ok result2 => read_response_go F fuel command result2 { c with stream := rest }
      | .error e => (.error e, { c with stream := rest })
    | (.error .ClientClosed, _) =>
      match reconnect c with
      | .error e => (.error e, c)
      | .ok c2 => read_response_go F fuel command F.empty (execute c2 command)
    | (.error e, rest) => (.error e, { c with stream := rest })

/-- `ProtoClient::read_response` at its always-sufficient fuel. -/
def read_response {V : Type} (F : FromMpd V) (command : Bytes) (c : SocketClient) :
    Except MpdError V × SocketClient :=
  read_response_go F (clientFuel c) command F.empty c

/-- Translation of `ProtoClient::read_opt_response` (`proto_client.rs` lines
102-125), with explicit step fuel: like `read_response` but tracking whether
any value line was seen; none seen before the terminator yields `none`. -/
def read_opt_response_go {V : Type} (F : FromMpd V) :
    Nat → Bytes → V → Bool → SocketClient → Except MpdError (Option V) × SocketClient
  | 0, _, _, _, c => (.error .ClientClosed, c)
  | fuel + 1, command, result, found_any, c =>
    match readLineS c.stream with
    | (.ok .Ok, rest) =>
      (.ok (if found_any then some result else none), { c with stream := rest })
    | (.ok (.Value val), rest) =>
      match F.next result val with
      | .ok result2 => read_opt_response_go F fuel command result2 true { c with stream := rest }
      | .error e => (.error e, { c with stream := rest })
    | (.error .ClientClosed, _) =>
      match reconnect c with
      | .error e => (.error e, c)
      | .ok c2 => read_opt_response_go F fuel command F.empty false (execute c2 command)
    | (.error e, rest) => (.error e, { c with stream := rest })

/-- `ProtoClient::read_opt_response` at its always-sufficient fuel. -/
def read_opt_response {V : Type} (F : FromMpd V) (command : Bytes) (c : SocketClient) :
    Except MpdError (Option V) × SocketClient :=
  read_opt_response_go F (clientFuel c) command F.empty false c

/-- Mirrors `struct BinaryMpdResponse` of `proto_client.rs`: the parsed
binary preamble `{ bytes_read: u64, size_total: u32, mime_type }`. -/
structure BinaryMpdResponse where
  bytes_read : Nat
  size_total : Nat
  mime_type : Option Bytes
deriving DecidableEq, Repr

/-- `BinaryMpdResponse::default()`. -/
def BinaryMpdResponse.default : BinaryMpdResponse :=
  { bytes_read := 0, size_total := 0, mime_type := none }

/-- Rust's `str::to_lowercase` on the ASCII keys the protocol uses. -/
def toLowerBytes (s : Bytes) : Bytes := s.map Char.toLower

/-- The `format!("Unexpected key when parsing binary response: '{key}'")`
message of the source. -/
def unexpectedKeyMsg (key : Bytes) : Bytes :=
  ("Unexpected key when parsing binary response: \x27").toList ++ key ++ ("\x27").toList

/-- The preamble loop of `ProtoClient::_read_bin` (`proto_client.rs` lines
157-181), with explicit step fuel: read lines until the `binary` key; `size`
sets the declared total, `type` the MIME string, any other key is a hard
decode error naming that (lowercased) key; an `OK` line instead of a preamble
means no binary data. -/
def readBinPreamble_go :
    Nat → Bytes → BinaryMpdResponse → Except MpdError (Option BinaryMpdResponse) × Bytes
  | 0, s, _ => (.error .ClientClosed, s)
  | fuel + 1, s, result =>
    match readLineS s with
    | (.ok .Ok, rest) => (.ok none, rest)
    | (.ok (.Value val), rest) =>
      match split_line val with
      | .error e => (.error e, rest)
      | .ok (key, value) =>
        let k := toLowerBytes key
        if k = "size".toList then
          match parseNum (2 ^ 32) value with
          | .error e => (.error e, rest)
          | .ok n => readBinPreamble_go fuel rest { result with size_total := n }
        else if k = "type".toList then
          readBinPreamble_go fuel rest { result with mime_type := some value }
        else if k = "binary".toList then
          match parseNum (2 ^ 64) value with
          | .error e => (.error e, rest)
          | .ok n => (.ok (some { result with bytes_read := n }), rest)
        else
          (.error (.Generic (unexpectedKeyMsg k)), rest)
    | (.error e, rest) => (.error e, rest)

/-- Translation of `ProtoClient::_read_bin` (`proto_client.rs` lines
153-189) over an in-memory stream: parse the preamble, append exactly
`bytes_read` raw bytes (fewer if the stream ends) to the accumulation
buffer, consume the blank trailer line, then expect a terminator.  Returns
the parsed header (or `none` when the server answered `OK` immediately), the
updated buffer, and the remainder of the stream. -/
def _read_bin (s : Bytes) (buf : Bytes) :
    Except MpdError (Option BinaryMpdResponse) × Bytes × Bytes :=
  match readBinPreamble_go (s.length + 1) s BinaryMpdResponse.default with
  | (.error e, rest) => (.error e, buf, rest)
  | (.ok none, rest) => (.ok none, buf, rest)
  | (.ok (some result), rest) =>
    let buf2 := buf ++ rest.take result.bytes_read
    let rest2 := rest.drop result.bytes_read
    let rest3 := (readLineRaw rest2).2
    match readLineS rest3 with
    | (.ok .Ok, rest4) => (.ok (some result), buf2, rest4)
    | (.ok (.Value val), rest4) => (.error (.Generic (expectedOkMsg val)), buf2, rest4)
    | (.error e, rest4) => (.error e, buf2, rest4)

/-- The `format!("{} {}", self.command, buf.len())` re-issued command: the
base command with the current accumulated length appended as the offset. -/
def offsetCmd (command : Bytes) (n : Nat) : Bytes :=
  command ++ [' '] ++ (Nat.repr n).toList

/-- The `loop` of `ProtoClient::read_bin` (`proto_client.rs` lines 139-149),
with explicit step fuel: unconditionally re-issue the base command with the
accumulated length as offset, read one binary slice, and stop once the
accumulated length reaches the declared total or the slice reported zero new
bytes; an `OK` with no binary data here is a `ValueExpected` error. -/
def read_bin_loop_go :
    Nat → Bytes → Bytes → SocketClient → Except MpdError (Option Bytes) × SocketClient
  | 0, _, _, c => (.error .ClientClosed, c)
  | fuel + 1, command, buf, c =>
    let c1 := execute c (offsetCmd command buf.length)
    match _read_bin c1.stream buf with
    | (.error e, _, rest) => (.error e, { c1 with stream := rest })
    | (.ok none, _, rest) =>
      (.error (.ValueExpected ("Expected binary data but got none").toList),
        { c1 with stream := rest })
    | (.ok (some response), buf2, rest) =>
      if response.size_total ≤ buf2.length ∨ response.bytes_read = 0 then
        (.ok (some buf2), { c1 with stream := rest })
      else
        read_bin_loop_go fuel command buf2 { c1 with stream := rest }

/-- Translation of `ProtoClient::read_bin` (`proto_client.rs` lines
127-151).  The first `_read_bin`'s outcome is bound to `let _ =` in the
source: an immediate `OK` returns "no binary data"; a connection-closed
reconnects and re-executes the command with the current accumulated length
appended, discarding the retried read's outcome; every other outcome — the
first slice's header **and any other error** — is discarded, and control
falls into the unconditional re-issue loop. -/
def read_bin (command : Bytes) (c : SocketClient) :
    Except MpdError (Option Bytes) × SocketClient :=
  match _read_bin c.stream [] with
  | (.ok none, _, rest) => (.ok none, { c with stream := rest })
  | (.ok (some _), buf, rest) =>
    let c1 : SocketClient := { c with stream := rest }
    read_bin_loop_go (clientFuel c1) command buf c1
  | (.error .ClientClosed, buf, rest) =>
    match reconnect { c with stream := rest } with
    | .error e => (.error e, { c with stream := rest })
    | .ok c2 =>
      let c3 := execute c2 (offsetCmd command buf.length)
      let p := _read_bin c3.stream buf
      let c4 : SocketClient := { c3 with stream := p.2.2 }
      read_bin_loop_go (clientFuel c4) command p.2.1 c4
  | (.error _, buf, rest) =>
    let c1 : SocketClient := { c with stream := rest }
    read_bin_loop_go (clientFuel c1) command buf c1

/-- Mirrors the source's test decodable `struct TestMpdObject { val_a, val_b }`
(`proto_client.rs` lines 224-228). -/
structure TestMpdObject where
  val_a : Bytes
  val_b : Bytes
deriving DecidableEq, Repr

/-- `TestMpdObject::default()`. -/
def TestMpdObject.default : TestMpdObject := { val_a := [], val_b := [] }

/-- Translation of `TestMpdObject`'s `next_internal` (`proto_client.rs`
lines 229-241): the sentinel key `fail` is a hard failure, `val_a`/`val_b`
set the fields, any other key is an "unknown value" failure. -/
def TestMpdObject.next_internal (o : TestMpdObject) (key : Bytes) (value : Bytes) :
    Except MpdError (LineHandled × TestMpdObject) :=
  if key = "fail".toList then .error (.Generic ("intentional fail").toList)
  else if key = "val_a".toList then .ok (.yes, { o with val_a := value })
  else if key = "val_b".toList then .ok (.yes, { o with val_b := value })
  else .error (.Generic ("unknown value").toList)

/-- The `FromMpd` instance of `TestMpdObject`. -/
def testMpdObject : FromMpd TestMpdObject :=
  { empty := TestMpdObject.default, next_internal := TestMpdObject.next_internal }

/-- A well-formed wire value line: non-empty, newline-free, and not lexically
a terminator or failure line. -/
def GoodValueLine (t : Bytes) : Prop :=
  t ≠ [] ∧ '\n' ∉ t ∧ ¬ ("OK".toList <+: t) ∧ ¬ ("list_OK".toList <+: t) ∧
    ¬ ("ACK".toList <+: t)

instance (t : Bytes) : Decidable (GoodValueLine t) := by
  unfold GoodValueLine
  infer_instance

theorem isPrefixOf_eq_false {p t : Bytes} (h : ¬ (p <+: t)) : p.isPrefixOf t = false := by
  rw [← Bool.not_eq_true, List.isPrefixOf_iff_prefix]
  exact h

theorem not_prefix_concat {p t : Bytes} {c : Char} (hc : c ∉ p) (h : ¬ (p <+: t)) :
    ¬ (p <+: t ++ [c]) := by
  rw [List.prefix_concat_iff]
  rintro (rfl | hp)
  · exact hc (List.mem_append_right _ (List.mem_singleton_self c))
  · exact h hp

theorem readLineRaw_append {t : Bytes} (rest : Bytes) (h : '\n' ∉ t) :
    readLineRaw (t ++ '\n' :: rest) = (t ++ ['\n'], rest) := by
  induction t with
  | nil => rfl
  | cons c cs ih =>
    have hc : ¬ (c = '\n') := fun hc => h (hc ▸ List.mem_cons_self c cs)
    have hcs : '\n' ∉ cs := fun hm => h (List.mem_cons_of_mem c hm)
    simp only [List.cons_append, readLineRaw, if_neg hc]
    rw [show cs.append ('\n' :: rest) = cs ++ '\n' :: rest from rfl, ih hcs]

theorem readLineS_value {t : Bytes} (rest : Bytes) (h : GoodValueLine t) :
    readLineS (t ++ '\n' :: rest) = (.ok (.Value t), rest) := by
  obtain ⟨hne, hnl, hOK, hlOK, hACK⟩ := h
  have hlen : (t ++ ['\n']).length ≠ 0 := by simp
  have hOK2 : "OK".toList.isPrefixOf (t ++ ['\n']) = false :=
    isPrefixOf_eq_false (not_prefix_concat (by decide) hOK)
  have hlOK2 : "list_OK".toList.isPrefixOf (t ++ ['\n']) = false :=
    isPrefixOf_eq_false (not_prefix_concat (by decide) hlOK)
  have hACK2 : "ACK".toList.isPrefixOf (t ++ ['\n']) = false :=
    isPrefixOf_eq_false (not_prefix_concat (by decide) hACK)
  simp only [readLineS, readLineRaw_append rest hnl, read_line, if_neg hlen, hOK2, hlOK2,
    hACK2, Bool.or_self, Bool.false_eq_true, if_false, List.dropLast_concat]

theorem readLineS_terminator {t : Bytes} (rest : Bytes) (h : "OK".toList <+: t)
    (hnl : '\n' ∉ t) : readLineS (t ++ '\n' :: rest) = (.ok .Ok, rest) := by
  have hne : (t ++ ['\n']).length ≠ 0 := by simp
  have hOK2 : "OK".toList.isPrefixOf (t ++ ['\n']) = true := by
    rw [List.isPrefixOf_iff_prefix]
    exact h.trans (List.prefix_append t ['\n'])
  simp only [readLineS, readLineRaw_append rest hnl, read_line, if_neg hne, hOK2,
    Bool.true_or, if_true]

/-- Wire encoding of a sequence of lines: each followed by a newline. -/
def wire : List Bytes → Bytes
  | [] => []
  | v :: vs => v ++ '\n' :: wire vs

/-- Feeding a sequence of value lines through a decoder, as the read loops
do: fold `FromMpd.next` over the lines, stopping at the first failure. -/
def feedAll {V : Type} (F : FromMpd V) (acc : V) : List Bytes → Except MpdError V
  | [] => .ok acc
  | v :: vs =>
    match F.next acc v with
    | .ok acc2 => feedAll F acc2 vs
    | .error e => .error e

theorem length_le_wire (vals : List Bytes) : vals.length ≤ (wire vals).length := by
  induction vals with
  | nil => simp [wire]
  | cons v vs ih =>
    simp only [wire, List.length_cons, List.length_append]
    omega

theorem read_opt_go_wire {V : Type} (F : FromMpd V) (vals : List Bytes) :
    ∀ (fuel : Nat) (cmd : Bytes) (acc : V) (found : Bool) (c : SocketClient)
      (tail : Bytes) (res : V),
      (∀ v ∈ vals, GoodValueLine v) →
      c.stream = wire vals ++ "OK\n".toList ++ tail →
      feedAll F acc vals = .ok res →
      vals.length < fuel →
      read_opt_response_go F fuel cmd acc found c =
        (.ok (if found || !vals.isEmpty then some res else none), { c with stream := tail }) := by
  induction vals with
  | nil =>
    intro fuel cmd acc found c tail res _ hstream hfeed hlt
    obtain ⟨f, rfl⟩ : ∃ f, fuel = f + 1 := ⟨fuel - 1, by omega⟩
    have hres : acc = res := by
      simpa [feedAll] using hfeed
    subst hres
    have hstream2 : c.stream = "OK".toList ++ '\n' :: tail := by
      simpa [wire] using hstream
    simp only [read_opt_response_go, hstream2,
      readLineS_terminator tail (List.prefix_refl _) (by decide)]
    simp
  | cons v vs ih =>
    intro fuel cmd acc found c tail res hgood hstream hfeed hlt
    obtain ⟨f, rfl⟩ : ∃ f, fuel = f + 1 := ⟨fuel - 1, by omega⟩
    have hstream2 : c.stream = v ++ '\n' :: (wire vs ++ "OK\n".toList ++ tail) := by
      simpa [wire, List.append_assoc] using hstream
    have hv : GoodValueLine v := hgood v (List.mem_cons_self v vs)
    obtain ⟨acc2, hacc2, hfeed2⟩ :
        ∃ acc2, F.next acc v = .ok acc2 ∧ feedAll F acc2 vs = .ok res := by
      revert hfeed
      simp only [feedAll]
      rcases h : F.next acc v with e | acc2
      · intro hfeed
        exact absurd hfeed (by simp)
      · intro hfeed
        exact ⟨acc2, rfl, hfeed⟩
    simp only [read_opt_response_go, hstream2, readLineS_value _ hv, hacc2]
    have := ih f cmd acc2 true { c with stream := wire vs ++ "OK\n".toList ++ tail } tail res
      (fun w hw => hgood w (List.mem_cons_of_mem v hw)) rfl hfeed2 (by
        simp only [List.length_cons] at hlt
        omega)
    rw [this]
    simp

theorem read_response_go_fail {V : Type} (F : FromMpd V) (vals : List Bytes) :
    ∀ (fuel : Nat) (cmd : Bytes) (acc : V) (c : SocketClient)
      (failLine suffix : Bytes) (e : MpdError) (res : V),
      (∀ v ∈ vals, GoodValueLine v) →
      GoodValueLine failLine →
      c.stream = wire (vals ++ [failLine]) ++ suffix →
      feedAll F acc vals = .ok res →
      F.next res failLine = .error e →
      vals.length < fuel →
      read_response_go F fuel cmd acc c = (.error e, { c with stream := suffix }) := by
  induction vals with
  | nil =>
    intro fuel cmd acc c failLine suffix e res _ hfailGood hstream hfeed hfail hlt
    obtain ⟨f, rfl⟩ : ∃ f, fuel = f + 1 := ⟨fuel - 1, by omega⟩
    have hres : acc = res := by
      simpa [feedAll] using hfeed
    subst hres
    have hstream2 : c.stream = failLine ++ '\n' :: suffix := by
      simpa [wire] using hstream
    simp only [read_response_go, hstream2, readLineS_value _ hfailGood, hfail]
  | cons v vs ih =>
    intro fuel cmd acc c failLine suffix e res hgood hfailGood hstream hfeed hfail hlt
    obtain ⟨f, rfl⟩ : ∃ f, fuel = f + 1 := ⟨fuel - 1, by omega⟩
    have hstream2 :
        c.stream = v ++ '\n' :: (wire (vs ++ [failLine]) ++ suffix) := by
      simpa [wire, List.append_assoc] using hstream
    have hv : GoodValueLine v := hgood v (List.mem_cons_self v vs)
    obtain ⟨acc2, hacc2, hfeed2⟩ :
        ∃ acc2, F.next acc v = .ok acc2 ∧ feedAll F acc2 vs = .ok res := by
      revert hfeed
      simp only [feedAll]
      rcases h : F.next acc v with e2 | acc2
      · intro hfeed
        exact absurd hfeed (by simp)
      · intro hfeed
        exact ⟨acc2, rfl, hfeed⟩
    simp only [read_response_go, hstream2, readLineS_value _ hv, hacc2]
    exact ih f cmd acc2 { c with stream := wire (vs ++ [failLine]) ++ suffix }
      failLine suffix e res (fun w hw => hgood w (List.mem_cons_of_mem v hw)) hfailGood rfl
      hfeed2 hfail (by
        simp only [List.length_cons] at hlt
        omega)

theorem read_bin_loop_go_sent (fuel : Nat) :
    ∀ (cmd buf : Bytes) (c : SocketClient),
      ∃ t, (read_bin_loop_go fuel cmd buf c).2.sent = c.sent ++ t := by
  induction fuel with
  | zero =>
    intro cmd buf c
    exact ⟨[], (List.append_nil _).symm⟩
  | succ f ih =>
    intro cmd buf c
    simp only [read_bin_loop_go]
    rcases h : _read_bin (execute c (offsetCmd cmd buf.length)).stream buf with ⟨r, buf2, rest⟩
    rcases r with e | o
    · exact ⟨[offsetCmd cmd buf.length], rfl⟩
    · rcases o with _ | response
      · exact ⟨[offsetCmd cmd buf.length], rfl⟩
      · dsimp only
        by_cases hcond : response.size_total ≤ buf2.length ∨ response.bytes_read = 0
        · rw [if_pos hcond]
          exact ⟨[offsetCmd cmd buf.length], rfl⟩
        · rw [if_neg hcond]
          obtain ⟨t2, ht2⟩ := ih cmd buf2
            { execute c (offsetCmd cmd buf.length) with stream := rest }
          exact ⟨[offsetCmd cmd buf.length] ++ t2, by
            rw [ht2]
            simp [execute]⟩

/-- Claim C1, evaluated at a failing input (code bug): the claim says that
when the very first slice already brings the buffer to the declared
`size_total`, `read_bin` stops and returns the buffer with no further round
trip.  In the source the first `_read_bin`'s header is discarded
(`let _ = match ...`) and the loop unconditionally re-issues the command, so
on a first response whose 4-byte slice already fulfils `size: 4` the client
sends a second round-trip command `albumart x 4` and, the server having
nothing more to say, fails with connection-closed instead of returning the
assembled 4-byte buffer. -/
theorem c1_read_bin_reissues_after_complete_first_slice :
    read_bin "albumart x".toList
        (protoClient "albumart x".toList
          "size: 4\ntype: t\nbinary: 4\nWXYZ\nOK\n".toList []) =
      (.error .ClientClosed,
        { stream := [], reconnects := [],
          sent := ["albumart x".toList, "albumart x 4".toList] }) := by
  decide

/-- Claim C2, evaluated at a failing input (code bug): the claim says a
malformed binary preamble key makes `read_bin` return the decode error
naming the key, never retrying.  The inner `_read_bin` does produce exactly
that error (first conjunct, matching the source's own unit test), but
`read_bin` binds the first read's outcome to `let _ =`, silently discarding
the error, re-issues the command with offset 0 (second entry of `sent`),
and then returns a different error (`ValueExpected`) instead. -/
theorem c2_read_bin_swallows_decode_error_and_retries :
    _read_bin "idc: value\nOK\n".toList [] =
      (.error (.Generic (unexpectedKeyMsg "idc".toList)), [], "OK\n".toList) ∧
    read_bin "readpicture x".toList
        (protoClient "readpicture x".toList "idc: value\nOK\n".toList []) =
      (.error (.ValueExpected ("Expected binary data but got none").toList),
        { stream := [], reconnects := [],
          sent := ["readpicture x".toList, "readpicture x 0".toList] }) := by
  constructor
  · decide
  · decide

/-- Claim C3, evaluated at a failing input (code bug): a zero-byte read and
a broken-pipe read error are indeed classified identically as
connection-closed (first two conjuncts), but the claim's second half — that
any other I/O error kind is NOT classified as connection-closed — fails: the
source's catch-all `_ => Err(MpdError::ClientClosed)` arm sends every read
error, e.g. a timeout, to the same connection-closed signal. -/
theorem c3_read_line_classifies_all_errors_closed :
    read_line (.ok []) = .error .ClientClosed ∧
    read_line (.err .brokenPipe) = .error .ClientClosed ∧
    read_line (.err .timedOut) = .error .ClientClosed ∧
    read_line (.err .other) = .error .ClientClosed := by
  decide

/-- Claim C4: when the first binary read ends in connection-closed with
`buf` already accumulated, the command re-executed right after the reconnect
is the original command with the accumulated length appended as offset
(`offsetCmd`), and it differs from the original command. -/
theorem c4_read_bin_reconnect_uses_offset_command (cmd : Bytes) (c : SocketClient)
    (buf rest r : Bytes) (rs : List Bytes)
    (hread : _read_bin c.stream [] = (.error .ClientClosed, buf, rest))
    (hbuf : buf ≠ [])
    (hrc : c.reconnects = r :: rs) :
    (∃ t, (read_bin cmd c).2.sent = c.sent ++ [offsetCmd cmd buf.length] ++ t) ∧
      offsetCmd cmd buf.length ≠ cmd := by
  constructor
  · unfold read_bin
    rw [hread]
    dsimp only
    unfold reconnect
    rw [show ({ c with stream := rest } : SocketClient).reconnects = r :: rs from hrc]
    dsimp only
    obtain ⟨t2, ht2⟩ := read_bin_loop_go_sent _ cmd _ _
    refine ⟨t2, ?_⟩
    rw [ht2]
    simp [execute]
  · intro h
    have hl := congrArg List.length h
    simp only [offsetCmd, List.length_append, List.length_cons, List.length_nil] at hl
    omega

/-- Claim C4 witness: a concrete binary read whose first slice ends in
connection-closed after 4 accumulated bytes re-executes `albumart x 4`. -/
theorem c4_read_bin_reconnect_uses_offset_command_witness :
    (∃ t, (read_bin "albumart x".toList
        (protoClient "albumart x".toList "size: 10\nbinary: 4\nABCD".toList [[]])).2.sent =
      ["albumart x".toList] ++ ["albumart x 4".toList] ++ t) ∧
      "albumart x 4".toList ≠ "albumart x".toList := by
  have h := c4_read_bin_reconnect_uses_offset_command "albumart x".toList
    (protoClient "albumart x".toList "size: 10\nbinary: 4\nABCD".toList [[]])
    "ABCD".toList [] [] [] (by decide) (by decide) (by decide)
  exact h

/-- Claim C5: a line beginning with `OK` or `list_OK` is classified as the
terminator whatever follows on the line; a newline-terminated line beginning
with none of `OK`, `list_OK`, `ACK` is classified as `Value` with the
trailing newline stripped. -/
theorem c5_read_line_classification (l : Bytes) :
    ((("OK".toList.isPrefixOf l) || ("list_OK".toList.isPrefixOf l)) = true →
      read_line (.ok l) = .ok .Ok) ∧
    (∀ t, l = t ++ ['\n'] →
      ("OK".toList.isPrefixOf l) = false →
      ("list_OK".toList.isPrefixOf l) = false →
      ("ACK".toList.isPrefixOf l) = false →
      read_line (.ok l) = .ok (.Value t)) := by
  constructor
  · intro h
    have hne : l.length ≠ 0 := by
      rcases l with _ | ⟨ch, cs⟩
      · exact absurd h (by decide)
      · simp
    simp only [read_line]
    rw [if_neg hne, if_pos h]
  · rintro t rfl hOK hlOK hACK
    have hne : (t ++ ['\n']).length ≠ 0 := by simp
    simp only [read_line, if_neg hne, hOK, hlOK, hACK, Bool.or_self, Bool.false_eq_true,
      if_false, List.dropLast_concat]

/-- Claim C5 witness: `OK enenene` is a terminator (as in the source's unit
test) and `abc\n` is the value `abc`. -/
theorem c5_read_line_classification_witness :
    read_line (.ok "OK enenene".toList) = .ok .Ok ∧
    read_line (.ok "abc\n".toList) = .ok (.Value "abc".toList) := by
  constructor
  · exact (c5_read_line_classification "OK enenene".toList).1 (by decide)
  · exact (c5_read_line_classification "abc\n".toList).2 "abc".toList (by decide)
      (by decide) (by decide) (by decide)

/-- Claim C6: a value line before the terminator makes `read_ok` fail with
the "Expected 'OK' but got ..." decode error carrying the offending line's
text; a stream whose first line is a terminator makes `read_ok` succeed. -/
theorem c6_read_ok_value_is_error (cmd : Bytes) (c : SocketClient) :
    (∀ t rest, GoodValueLine t → c.stream = t ++ '\n' :: rest →
      read_ok cmd c = (.error (.Generic (expectedOkMsg t)), { c with stream := rest })) ∧
    (∀ t rest, "OK".toList <+: t → '\n' ∉ t → c.stream = t ++ '\n' :: rest →
      read_ok cmd c = (.ok (), { c with stream := rest })) := by
  constructor
  · intro t rest hgood hstream
    obtain ⟨f, hf⟩ : ∃ f, clientFuel c = f + 1 := ⟨_, rfl⟩
    unfold read_ok
    rw [hf]
    simp only [read_ok_go, hstream, readLineS_value rest hgood]
  · intro t rest hpre hnl hstream
    obtain ⟨f, hf⟩ : ∃ f, clientFuel c = f + 1 := ⟨_, rfl⟩
    unfold read_ok
    rw [hf]
    simp only [read_ok_go, hstream, readLineS_terminator rest hpre hnl]

/-- Claim C6 witness: `read_ok` over `idc\nOK\n` fails carrying `idc` (the
source's unit test input), and over `OK\n` succeeds. -/
theorem c6_read_ok_value_is_error_witness :
    read_ok [] (protoClient [] "idc\nOK\n".toList []) =
      (.error (.Generic (expectedOkMsg "idc".toList)),
        { stream := "OK\n".toList, reconnects := [], sent := [[]] }) ∧
    read_ok [] (protoClient [] "OK\n".toList []) =
      (.ok (), { stream := [], reconnects := [], sent := [[]] }) := by
  constructor
  · exact (c6_read_ok_value_is_error [] (protoClient [] "idc\nOK\n".toList [])).1
      "idc".toList "OK\n".toList (by decide) (by decide)
  · exact (c6_read_ok_value_is_error [] (protoClient [] "OK\n".toList [])).2
      "OK".toList [] (by decide) (by decide) (by decide)

/-- Claim C7: `read_opt_response` over a stream whose first line is the
terminator yields `none`; over a stream with at least one value line that
the decoder accepts before the terminator it yields `some` of the
accumulated object. -/
theorem c7_read_opt_response_none_vs_some {V : Type} (F : FromMpd V) (cmd : Bytes)
    (c : SocketClient) (tail : Bytes) :
    (c.stream = "OK\n".toList ++ tail →
      read_opt_response F cmd c = (.ok none, { c with stream := tail })) ∧
    (∀ (vals : List Bytes) (res : V), vals ≠ [] →
      (∀ v ∈ vals, GoodValueLine v) →
      feedAll F F.empty vals = .ok res →
      c.stream = wire vals ++ "OK\n".toList ++ tail →
      read_opt_response F cmd c = (.ok (some res), { c with stream := tail })) := by
  constructor
  · intro hstream
    unfold read_opt_response
    have h := read_opt_go_wire F [] (clientFuel c) cmd F.empty false c tail F.empty
      (by simp) (by simpa [wire] using hstream) (by simp [feedAll])
      (by simp only [List.length_nil, clientFuel]; omega)
    simpa using h
  · intro vals res hne hgood hfeed hstream
    unfold read_opt_response
    have hlt : vals.length < clientFuel c := by
      have h1 := length_le_wire vals
      have h2 : (wire vals).length ≤ c.stream.length := by
        rw [hstream]
        simp
      unfold clientFuel
      omega
    have h := read_opt_go_wire F vals (clientFuel c) cmd F.empty false c tail res
      hgood hstream hfeed hlt
    have hie : vals.isEmpty = false := by
      rcases vals with _ | ⟨v, vs⟩
      · exact absurd rfl hne
      · rfl
    rw [h, hie]
    simp

/-- Claim C7 witness: over `OK\n` the result is `none`; over
`val_b: a\nval_a: 5\nOK\n` the result is `some` of the decoded object (the
source's unit tests). -/
theorem c7_read_opt_response_none_vs_some_witness :
    read_opt_response testMpdObject [] (protoClient [] "OK\n".toList []) =
      (.ok none, { stream := [], reconnects := [], sent := [[]] }) ∧
    read_opt_response testMpdObject [] (protoClient [] "val_b: a\nval_a: 5\nOK\n".toList []) =
      (.ok (some { val_a := "5".toList, val_b := "a".toList }),
        { stream := [], reconnects := [], sent := [[]] }) := by
  constructor
  · exact (c7_read_opt_response_none_vs_some testMpdObject []
      (protoClient [] "OK\n".toList []) []).1 (by decide)
  · exact (c7_read_opt_response_none_vs_some testMpdObject []
      (protoClient [] "val_b: a\nval_a: 5\nOK\n".toList []) []).2
      ["val_b: a".toList, "val_a: 5".toList] { val_a := "5".toList, val_b := "a".toList }
      (by decide) (by decide) (by decide) (by decide)

theorem perm_pair_eq {α : Type} {a b : α} {l : List α} (h : l.Perm [a, b]) :
    l = [a, b] ∨ l = [b, a] := by
  have hlen : l.length = 2 := by simpa using h.length_eq
  match l, h, hlen with
  | [x, y], h, _ =>
    have hx : x ∈ [a, b] := (h.mem_iff).1 (List.mem_cons_self x [y])
    rcases List.mem_pair.1 hx with rfl | rfl
    · have h2 : List.Perm [y] [b] := (List.perm_cons x).1 h
      exact Or.inl (by rw [List.perm_singleton.1 h2])
    · have h2 : List.Perm [x, y] [x, a] := h.trans (List.Perm.swap x a [])
      have h4 : List.Perm [y] [a] := (List.perm_cons x).1 h2
      exact Or.inr (by rw [List.perm_singleton.1 h4])

/-- Claim C8: `read_response` over `val_b: a\nval_a: 5\nOK\n` decoded into
the two-field test object yields `{val_a: "5", val_b: "a"}`, and every
permutation of the same two value lines decodes to the same object: the
order of the fields on the wire is irrelevant to the result. -/
theorem c8_read_response_order_irrelevant :
    ∀ vals : List Bytes, vals.Perm ["val_b: a".toList, "val_a: 5".toList] →
      read_response testMpdObject [] (protoClient [] (wire vals ++ "OK\n".toList) []) =
        (.ok { val_a := "5".toList, val_b := "a".toList },
          { stream := [], reconnects := [], sent := [[]] }) := by
  intro vals h
  rcases perm_pair_eq h with rfl | rfl
  · decide
  · decide

/-- Claim C8 witness: the swapped order is a permutation of the two value
lines and decodes to the same object. -/
theorem c8_read_response_order_irrelevant_witness :
    read_response testMpdObject []
        (protoClient [] (wire ["val_a: 5".toList, "val_b: a".toList] ++ "OK\n".toList) []) =
      (.ok { val_a := "5".toList, val_b := "a".toList },
        { stream := [], reconnects := [], sent := [[]] }) :=
  c8_read_response_order_irrelevant ["val_a: 5".toList, "val_b: a".toList]
    (List.Perm.swap "val_b: a".toList "val_a: 5".toList [])

/-- Claim C9: a value line whose key the decoder maps to a hard failure
makes `read_response` return that failure immediately — not a partially
populated object — leaving the remainder of the stream (here `suffix`)
unconsumed. -/
theorem c9_read_response_propagates_decode_failure {V : Type} (F : FromMpd V)
    (cmd : Bytes) (c : SocketClient) (vals : List Bytes) (failLine suffix : Bytes)
    (e : MpdError) (res : V)
    (hgood : ∀ v ∈ vals, GoodValueLine v) (hfailGood : GoodValueLine failLine)
    (hstream : c.stream = wire (vals ++ [failLine]) ++ suffix)
    (hfeed : feedAll F F.empty vals = .ok res)
    (hfail : F.next res failLine = .error e) :
    read_response F cmd c = (.error e, { c with stream := suffix }) := by
  unfold read_response
  have hlt : vals.length < clientFuel c := by
    have h1 := length_le_wire (vals ++ [failLine])
    have h2 : (wire (vals ++ [failLine])).length ≤ c.stream.length := by
      rw [hstream]
      simp
    have h3 : vals.length < (vals ++ [failLine]).length := by simp
    unfold clientFuel
    omega
  exact read_response_go_fail F vals (clientFuel c) cmd F.empty c failLine suffix e res
    hgood hfailGood hstream hfeed hfail hlt

/-- Claim C9 witness: `fail: lol\nOK\n` (the source's unit test input) makes
`read_response` fail with "intentional fail", leaving `OK\n` unread. -/
theorem c9_read_response_propagates_decode_failure_witness :
    read_response testMpdObject [] (protoClient [] "fail: lol\nOK\n".toList []) =
      (.error (.Generic ("intentional fail").toList),
        { stream := "OK\n".toList, reconnects := [], sent := [[]] }) :=
  c9_read_response_propagates_decode_failure testMpdObject []
    (protoClient [] "fail: lol\nOK\n".toList []) [] "fail: lol".toList "OK\n".toList
    (.Generic ("intentional fail").toList) TestMpdObject.default
    (by decide) (by decide) (by decide) (by decide) (by decide)

/-- Claim C10 (implicit): for a non-empty line that is not a terminator or
ACK line, `read_line` unconditionally removes exactly the last character; so
a final line not terminated by a newline loses its last content byte — the
returned value differs from the intact line. -/
theorem c10_read_line_pops_last_char (t : Bytes) (h1 : t ≠ [])
    (h2 : t.getLast? ≠ some '\n')
    (h3 : ("OK".toList.isPrefixOf t) = false)
    (h4 : ("list_OK".toList.isPrefixOf t) = false)
    (h5 : ("ACK".toList.isPrefixOf t) = false) :
    read_line (.ok t) = .ok (.Value t.dropLast) ∧ t.dropLast ≠ t := by
  constructor
  · have hne : t.length ≠ 0 := fun hh => h1 (List.length_eq_zero.1 hh)
    simp only [read_line, if_neg hne, h3, h4, h5, Bool.or_self, Bool.false_eq_true, if_false]
  · intro h
    have hlen := congrArg List.length h
    rw [List.length_dropLast] at hlen
    have hne : t.length ≠ 0 := fun hh => h1 (List.length_eq_zero.1 hh)
    omega

/-- Claim C10 witness: the unterminated final line `abc` comes back as the
truncated value `ab`. -/
theorem c10_read_line_pops_last_char_witness :
    read_line (.ok "abc".toList) = .ok (.Value "ab".toList) ∧
      "ab".toList ≠ "abc".toList := by
  have h := c10_read_line_pops_last_char "abc".toList (by decide) (by decide) (by decide)
    (by decide) (by decide)
  exact ⟨h.1, by decide⟩

end Rmpc
